import Mathlib

/-!
# Verification of the Aranet4 `aranetctl` output parser

A shallow embedding of `src/aranet.ts`: the tolerant line-oriented parser
`parse`, and the two operation wrappers `getAranet4Devices` / `getSensorData`.

Strings are modelled as `List Char` (`JSString`).  JavaScript numbers are
modelled as exact rationals extended with `NaN` and the two infinities
(`JSNum`); `Number(string)` is modelled by `jsNumber`, following ECMAScript
`StringToNumber` (whitespace trimming, the empty string, signed decimal
literals with fraction and exponent, `Infinity`, and the `0x`/`0o`/`0b`
forms).  Runtime `TypeError`s of the original code (reading a property of
`undefined`, calling a method of `undefined`) are modelled by the `Except`
error channel.
-/

namespace Aranet

/-- JavaScript strings, modelled as lists of characters. -/
abbrev JSString := List Char

/-- The character class matched by `\s` in a JavaScript regular expression
(also the class trimmed by `String.prototype.trim`): ASCII whitespace,
line terminators, NBSP, BOM and the Unicode space separators. -/
def jsWhitespace (c : Char) : Bool :=
  c == '\t' || c == '\n' || c == '\r' || c == ' ' ||
  c.toNat == 11 || c.toNat == 12 || c.toNat == 160 || c.toNat == 5760 ||
  (decide (8192 ≤ c.toNat) && decide (c.toNat ≤ 8202)) ||
  c.toNat == 8232 || c.toNat == 8233 || c.toNat == 8239 ||
  c.toNat == 8287 || c.toNat == 12288 || c.toNat == 65279

/-- `String.prototype.trim`: drop leading and trailing whitespace. -/
def trim (l : JSString) : JSString :=
  ((l.dropWhile jsWhitespace).reverse.dropWhile jsWhitespace).reverse

/-- Prepend a chunk of characters onto the first piece of a split result.
`withHead l₁ [s, ...] = [l₁ ++ s, ...]`, and `[l₁]` on the empty list. -/
def withHead (l₁ : JSString) : List JSString → List JSString
  | [] => [l₁]
  | s :: ss => (l₁ ++ s) :: ss

/-- `String.prototype.split` against a single-character class: the string is
cut at every character satisfying `p` (the separator is dropped).  Used for
`split('\n')`, `split('/')` and `split(/\s/)`. -/
def splitEach (p : Char → Bool) : JSString → List JSString
  | [] => [[]]
  | a :: rest =>
    if p a then [] :: splitEach p rest
    else withHead [a] (splitEach p rest)

/-- Whether the first character of a string is `\s`-whitespace. -/
def headWs (l : JSString) : Bool :=
  match l.head? with
  | some c => jsWhitespace c
  | none => false

/-- Fuelled worker for `split(/\:\s+/)`: scanning left to right, a colon
followed by at least one whitespace character is a separator match, and the
(greedy) match swallows the whole whitespace run. -/
def splitCWF : Nat → JSString → List JSString
  | _, [] => [[]]
  | 0, l => [l]
  | fuel + 1, a :: rest =>
    if a = ':' ∧ headWs rest = true then
      [] :: splitCWF fuel (rest.dropWhile jsWhitespace)
    else
      withHead [a] (splitCWF fuel rest)

/-- `String.prototype.split(/\:\s+/)`, as used on each (trimmed) line. -/
def splitColonWs (l : JSString) : List JSString :=
  splitCWF l.length l

/-- JavaScript numbers: an exact rational, `NaN`, or one of the infinities.
(The IEEE-754 rounding of decimal literals is idealised away; every literal
denotes its exact rational value.) -/
inductive JSNum where
  | fin (q : Rat)
  | nan
  | inf
  | ninf
deriving DecidableEq

/-- JavaScript subtraction on `JSNum`. -/
def jsSub : JSNum → JSNum → JSNum
  | .fin a, .fin b => .fin (a - b)
  | .nan, _ => .nan
  | _, .nan => .nan
  | .inf, .inf => .nan
  | .inf, _ => .inf
  | .ninf, .ninf => .nan
  | .ninf, _ => .ninf
  | .fin _, .inf => .ninf
  | .fin _, .ninf => .inf

/-- JavaScript multiplication on `JSNum`. -/
def jsMul : JSNum → JSNum → JSNum
  | .fin a, .fin b => .fin (a * b)
  | .nan, _ => .nan
  | _, .nan => .nan
  | .inf, .inf => .inf
  | .inf, .ninf => .ninf
  | .ninf, .inf => .ninf
  | .ninf, .ninf => .inf
  | .inf, .fin b => if 0 < b then .inf else if b < 0 then .ninf else .nan
  | .fin a, .inf => if 0 < a then .inf else if a < 0 then .ninf else .nan
  | .ninf, .fin b => if 0 < b then .ninf else if b < 0 then .inf else .nan
  | .fin a, .ninf => if 0 < a then .ninf else if a < 0 then .inf else .nan

/-- ASCII decimal digit test. -/
def isDigit (c : Char) : Bool := decide ('0' ≤ c) && decide (c ≤ '9')

/-- Hexadecimal digit test. -/
def isHexDigit (c : Char) : Bool :=
  isDigit c || (decide ('a' ≤ c) && decide (c ≤ 'f')) ||
    (decide ('A' ≤ c) && decide (c ≤ 'F'))

/-- Octal digit test. -/
def isOctDigit (c : Char) : Bool := decide ('0' ≤ c) && decide (c ≤ '7')

/-- Binary digit test. -/
def isBinDigit (c : Char) : Bool := c == '0' || c == '1'

/-- Numeric value of a hexadecimal digit. -/
def hexDigitVal (c : Char) : Nat :=
  if decide ('a' ≤ c) && decide (c ≤ 'f') then c.toNat - 'a'.toNat + 10
  else if decide ('A' ≤ c) && decide (c ≤ 'F') then c.toNat - 'A'.toNat + 10
  else c.toNat - '0'.toNat

/-- Value of a digit string in the given base. -/
def digitsVal (base : Nat) (l : JSString) : Nat :=
  l.foldl (fun a c => a * base + hexDigitVal c) 0

/-- `10 ^ n` as a rational. -/
def pow10 (n : Nat) : Rat := (10 : Rat) ^ n

/-- The optional exponent part of a decimal literal; the whole remaining
string must be consumed, otherwise the literal is invalid. -/
def decExpPart (q : Rat) : JSString → Option Rat
  | [] => some q
  | c :: r =>
    if c == 'e' || c == 'E' then
      let sr : Bool × JSString :=
        match r with
        | '+' :: r₂ => (false, r₂)
        | '-' :: r₂ => (true, r₂)
        | _ => (false, r)
      let ds := sr.2.takeWhile isDigit
      let r₃ := sr.2.dropWhile isDigit
      if ds.isEmpty || !r₃.isEmpty then none
      else some (if sr.1 then q / pow10 (digitsVal 10 ds) else q * pow10 (digitsVal 10 ds))
    else none

/-- An unsigned decimal literal: `digits [. digits] [exp]` or `. digits [exp]`. -/
def unsignedDec (l : JSString) : Option Rat :=
  let ip := l.takeWhile isDigit
  let r₁ := l.dropWhile isDigit
  match r₁ with
  | '.' :: r₂ =>
    let fp := r₂.takeWhile isDigit
    let r₃ := r₂.dropWhile isDigit
    if ip.isEmpty && fp.isEmpty then none
    else decExpPart ((digitsVal 10 ip : Rat) + (digitsVal 10 fp : Rat) / pow10 fp.length) r₃
  | _ => if ip.isEmpty then none else decExpPart (digitsVal 10 ip : Rat) r₁

/-- A signed decimal literal or a signed `Infinity`. -/
def jsNumBody (l : JSString) : JSNum :=
  let core : JSString → Bool → JSNum := fun r neg =>
    if r = "Infinity".toList then (if neg then .ninf else .inf)
    else
      match unsignedDec r with
      | some q => .fin (if neg then -q else q)
      | none => .nan
  match l with
  | '+' :: r => core r false
  | '-' :: r => core r true
  | _ => core l false

/-- `StringToNumber` after whitespace trimming: the empty string is `0`;
`0x`/`0o`/`0b` literals are unsigned integers in their base; everything else
must be a signed decimal literal or `Infinity`, else `NaN`. -/
def jsNumberClean (l : JSString) : JSNum :=
  match l with
  | [] => .fin 0
  | '0' :: c :: r =>
    if c == 'x' || c == 'X' then
      (if !r.isEmpty && r.all isHexDigit then .fin (digitsVal 16 r : Rat) else .nan)
    else if c == 'o' || c == 'O' then
      (if !r.isEmpty && r.all isOctDigit then .fin (digitsVal 8 r : Rat) else .nan)
    else if c == 'b' || c == 'B' then
      (if !r.isEmpty && r.all isBinDigit then .fin (digitsVal 2 r : Rat) else .nan)
    else jsNumBody ('0' :: c :: r)
  | _ => jsNumBody l

/-- The JavaScript `Number()` conversion on a string. -/
def jsNumber (l : JSString) : JSNum :=
  jsNumberClean (trim l)

/-- `Number()` applied to a possibly-`undefined` value (as in
`Number(until)` when the `Age` value has no `/`): `undefined` is `NaN`. -/
def jsNumOfOpt : Option JSString → JSNum
  | some s => jsNumber s
  | none => .nan

/-- A dynamically-typed field value as it is stored on the in-progress
device object: a number, a string, or `undefined`. -/
inductive Value where
  | num (n : JSNum)
  | str (s : JSString)
  | undefined
deriving DecidableEq

/-- The value of a possibly-`undefined` string. -/
def valOfOpt : Option JSString → Value
  | some s => .str s
  | none => .undefined

/-- The runtime `TypeError`s the original code can raise. -/
inductive Err where
  | splitOfUndefined
  | unitOfUndefined
  | writeToUndefined
  | readOfUndefined
deriving DecidableEq

/-- The internal field names, i.e. the values of the `DEVICE_KEYS` map. -/
inductive FieldKey where
  | name
  | address
  | co2
  | temperature
  | humidity
  | pressure
  | battery
  | status
  | nextUpdate
deriving DecidableEq

/-- `DEVICE_KEYS.has(name)` / `DEVICE_KEYS.get(name)` in one step. -/
def lookupKey (s : JSString) : Option FieldKey :=
  if s = "Name".toList then some .name
  else if s = "Address".toList then some .address
  else if s = "CO2".toList then some .co2
  else if s = "Temperature".toList then some .temperature
  else if s = "Humidity".toList then some .humidity
  else if s = "Pressure".toList then some .pressure
  else if s = "Battery".toList then some .battery
  else if s = "Status Display".toList then some .status
  else if s = "Age".toList then some .nextUpdate
  else none

/-- A stored field: `{value}` with an optional `unit` property. -/
structure Field where
  value : Value
  unit : Option JSString
deriving DecidableEq

/-- The `age` sub-structure: `{value: Number(now), base: Number(until)}`. -/
structure AgeVal where
  value : JSNum
  base : JSNum
deriving DecidableEq

/-- An in-progress/emitted device record; a fresh `{}` has every field
absent (`none`). -/
structure Device where
  name : Option Field := none
  address : Option Field := none
  co2 : Option Field := none
  temperature : Option Field := none
  humidity : Option Field := none
  pressure : Option Field := none
  battery : Option Field := none
  status : Option Field := none
  nextUpdate : Option Field := none
  age : Option AgeVal := none
deriving DecidableEq

/-- The fresh `{}` created at each boundary line. -/
def emptyDevice : Device := {}

/-- `device[key] = {value}` (plus the optional unit assignment). -/
def setField (d : Device) (k : FieldKey) (f : Field) : Device :=
  match k with
  | .name => { d with name := some f }
  | .address => { d with address := some f }
  | .co2 => { d with co2 := some f }
  | .temperature => { d with temperature := some f }
  | .humidity => { d with humidity := some f }
  | .pressure => { d with pressure := some f }
  | .battery => { d with battery := some f }
  | .status => { d with status := some f }
  | .nextUpdate => { d with nextUpdate := some f }

/-- `device[key]`, reading back a stored field. -/
def getField (d : Device) (k : FieldKey) : Option Field :=
  match k with
  | .name => d.name
  | .address => d.address
  | .co2 => d.co2
  | .temperature => d.temperature
  | .humidity => d.humidity
  | .pressure => d.pressure
  | .battery => d.battery
  | .status => d.status
  | .nextUpdate => d.nextUpdate

/-- `const STATUSES = ['GREEN', 'ORANGE', 'RED']`. -/
def STATUSES : List JSString :=
  ["GREEN".toList, "ORANGE".toList, "RED".toList]

/-- `STATUSES.indexOf(value)` under JavaScript strict equality: a number (or
`undefined`) never equals a string, so only string values can be found. -/
def statusesIndexOf (v : Value) : Int :=
  match v with
  | .str s =>
    if s = "GREEN".toList then 0
    else if s = "ORANGE".toList then 1
    else if s = "RED".toList then 2
    else -1
  | _ => -1

/-- The `if(unit)` truthiness guard: an empty string is falsy and is not
stored as a unit. -/
def unitField : Option JSString → Option JSString
  | some l => if l.isEmpty then none else some l
  | none => none

/-- `unit.endsWith('C') ? 'celcius' : 'fahrenheit'` (spelling as in the
source). -/
def normalizeTempUnit (u : JSString) : JSString :=
  if u.getLast? = some 'C' then "celcius".toList else "fahrenheit".toList

/-- The body of the line handler after the key has been resolved: value and
unit extraction, numeric conversion with raw-string fallback, temperature
unit normalization, status lookup, `Age` derivation, and the final
`device[key] = {value}` write.  `dev` is the current in-progress device
(`undefined` when no boundary line has been seen); writing a field of
`undefined`, `.split` on an `undefined` rest, or `.endsWith` on an
`undefined` unit raise `TypeError`s, modelled as errors. -/
def processField (dev : Option Device) (k : FieldKey) (sv : Option JSString) :
    Except Err Device :=
  match k with
  | .name =>
    match dev with
    | none => .error .writeToUndefined
    | some d => .ok (setField d .name ⟨valOfOpt sv, none⟩)
  | k =>
    match sv with
    | none => .error .splitOfUndefined
    | some s =>
      let toks := splitEach jsWhitespace s
      let n := jsNumber toks.headI
      let v : Value := if n = .nan then .str s else .num n
      let unit0 : Option JSString := toks.get? 1
      if k = .temperature then
        match unit0 with
        | none => .error .unitOfUndefined
        | some u =>
          match dev with
          | none => .error .writeToUndefined
          | some d => .ok (setField d k ⟨v, unitField (some (normalizeTempUnit u))⟩)
      else if k = .status then
        match dev with
        | none => .error .writeToUndefined
        | some d =>
          .ok (setField d k ⟨.num (.fin ((statusesIndexOf v + 1 : Int) : Rat)), unitField unit0⟩)
      else if k = .nextUpdate then
        let halves := splitEach (fun c => c == '/') s
        let a := jsNumber halves.headI
        let b := jsNumOfOpt (halves.get? 1)
        match dev with
        | none => .error .writeToUndefined
        | some d =>
          .ok (setField { d with age := some ⟨a, b⟩ } k
            ⟨.num (jsMul (jsSub b a) (.fin 1000)), unitField unit0⟩)
      else
        match dev with
        | none => .error .writeToUndefined
        | some d => .ok (setField d k ⟨v, unitField unit0⟩)

/-- One iteration of the `lines.forEach` body.  The state is the in-progress
device (possibly `undefined`) and the list of devices emitted so far. -/
def lineStep (st : Option Device × List Device) (line : JSString) :
    Except Err (Option Device × List Device) :=
  if line.isEmpty then .ok st
  else
    let parts := splitColonWs (trim line)
    let nm := parts.headI
    let st₁ :=
      if nm.head? = some '=' then
        match st.1 with
        | some d => (some emptyDevice, st.2 ++ [d])
        | none => (some emptyDevice, st.2)
      else st
    match lookupKey nm with
    | none => .ok st₁
    | some k =>
      match processField st₁.1 k (parts.get? 1) with
      | .ok d => .ok (some d, st₁.2)
      | .error e => .error e

/-- Run `lineStep` over a list of lines (the `forEach` loop). -/
def runLines (st : Option Device × List Device) :
    List JSString → Except Err (Option Device × List Device)
  | [] => .ok st
  | l :: ls =>
    match lineStep st l with
    | .ok st' => runLines st' ls
    | .error e => .error e

/-- The loop plus the final `if(device){devices.push(device)}`. -/
def parseLines (lines : List JSString) : Except Err (List Device) :=
  match runLines (none, []) lines with
  | .ok (dev, devs) => .ok (devs ++ dev.toList)
  | .error e => .error e

/-- `parse(stdout)`: split on newlines and run the loop. -/
def parse (stdout : JSString) : Except Err (List Device) :=
  parseLines (splitEach (fun c => c == '\n') stdout)

/-- The effect of a non-boundary line on the in-progress device alone (on a
non-boundary line the emitted-devices list is untouched). -/
def devStep (d : Device) (line : JSString) : Except Err Device :=
  if line.isEmpty then .ok d
  else
    let parts := splitColonWs (trim line)
    match lookupKey parts.headI with
    | none => .ok d
    | some k => processField (some d) k (parts.get? 1)

/-- Run `devStep` from a given device over a list of field lines. -/
def runDev : Device → List JSString → Except Err Device
  | d, [] => .ok d
  | d, l :: ls =>
    match devStep d l with
    | .ok d' => runDev d' ls
    | .error e => .error e

/-- The device a block of field lines builds, starting from the fresh `{}`
created at the block's boundary line. -/
def blockDevice (fields : List JSString) : Except Err Device :=
  runDev emptyDevice fields

/-- Is this line a boundary marker, i.e. does its label start with `=`? -/
def isBoundary (line : JSString) : Bool :=
  !line.isEmpty && ((splitColonWs (trim line)).headI.head? == some '=')

/-- Number of boundary-marker lines. -/
def countB (lines : List JSString) : Nat :=
  lines.countP isBoundary

/-- A line `parse` ignores entirely: empty, or a non-boundary line with an
unrecognized label. -/
def skipLine (line : JSString) : Bool :=
  line.isEmpty ||
    (!isBoundary line && (lookupKey (splitColonWs (trim line)).headI).isNone)

/-- A line whose handler cannot raise once an in-progress device exists:
empty, unrecognized (boundaries included), a bare `Name`, or a recognized
field line with a rest — carrying a unit token if it is a `Temperature`
line. -/
def safeLine (line : JSString) : Bool :=
  line.isEmpty ||
    (let parts := splitColonWs (trim line)
     match lookupKey parts.headI with
     | none => true
     | some k =>
       match parts.get? 1 with
       | none => k == .name
       | some s =>
         !(k == FieldKey.temperature) || ((splitEach jsWhitespace s).get? 1).isSome)

/-- A device block in the raw text: its boundary line and its field lines. -/
def blockLines (bl : JSString × List JSString) : List JSString :=
  bl.1 :: bl.2

/-- Tokens of field text that interact with none of the split steps: no
whitespace and no colon. -/
def goodTok (t : JSString) : Bool :=
  !t.isEmpty && t.all (fun c => !jsWhitespace c && !(c == ':'))

/-- The static placeholder metadata attached to every scanned device. -/
structure Aranet4DeviceInfo where
  manufacturer : JSString
  modelNumber : JSString
  serialNumber : JSString
  hardwareRevision : JSString
  firmwareRevision : JSString
  softwareRevision : JSString
deriving DecidableEq

/-- The default info object built in `getAranet4Devices`. -/
def defaultInfo : Aranet4DeviceInfo :=
  ⟨"DEFAULT_MANUFACTURER".toList, "DEFAULT_MODEL".toList, "DEFAULT_SERIAL".toList,
   "DEFAULT_HARDWARE_REV".toList, "DEFAULT_FIRMWARE_REV".toList,
   "DEFAULT_SOFTWARE_REV".toList⟩

/-- The facade object wrapping one parsed device. -/
structure Aranet4Device where
  device : Device
  info : Aranet4DeviceInfo
deriving DecidableEq

/-- The flattened reading returned by `getSensorData`. -/
structure AranetData where
  co2 : Value
  temperature : Value
  pressure : Value
  humidity : Value
  battery : Value
deriving DecidableEq

/-- Outcome of one of the two async operations: a `Promise.reject(stderr)`,
an exception escaping the function body, or a fulfilled value. -/
inductive Outcome (α : Type) where
  | rejected (msg : JSString)
  | thrown (e : Err)
  | ok (val : α)
deriving DecidableEq

/-- `parsedDevices.map(...)`: each record is wrapped with the default info;
`logger.debug('Found device', device.name.value)` reads `name.value` and
raises if the record has no `name` field. -/
def wrapDevices : List Device → Except Err (List Aranet4Device)
  | [] => .ok []
  | d :: ds =>
    match d.name with
    | none => .error .readOfUndefined
    | some _ =>
      match wrapDevices ds with
      | .ok as => .ok (⟨d, defaultInfo⟩ :: as)
      | .error e => .error e

/-- `Aranet4Device.getAranet4Devices`, with the `{stdout, stderr}` of
`exec('aranetctl --scan')` as inputs: a non-empty `stderr` rejects with that
message before `parse` is reached; otherwise `stdout` is parsed and mapped. -/
def getAranet4Devices (stdout stderr : JSString) : Outcome (List Aranet4Device) :=
  if !stderr.isEmpty then .rejected stderr
  else
    match parse stdout with
    | .error e => .thrown e
    | .ok ds =>
      match wrapDevices ds with
      | .error e => .thrown e
      | .ok as => .ok as

/-- `getSensorData`, with the `{stdout, stderr}` of
`exec('aranetctl <address>')` as inputs: a non-empty `stderr` rejects with
that message; otherwise `const [device] = parse(stdout)` takes the first
record and the five readings are projected out of it (reading a field of an
`undefined` record, or `.value` of an absent field, raises). -/
def getSensorData (stdout stderr : JSString) : Outcome AranetData :=
  if !stderr.isEmpty then .rejected stderr
  else
    match parse stdout with
    | .error e => .thrown e
    | .ok ds =>
      match ds.head? with
      | none => .thrown .readOfUndefined
      | some d =>
        match d.co2, d.temperature, d.pressure, d.humidity, d.battery with
        | some c, some t, some p, some h, some b =>
          .ok ⟨c.value, t.value, p.value, h.value, b.value⟩
        | _, _, _, _, _ => .thrown .readOfUndefined

deriving instance DecidableEq for Except

/-- The five numeric-with-optional-unit labels and their field keys. -/
def numericLabels : List (JSString × FieldKey) :=
  [("CO2".toList, .co2), ("Temperature".toList, .temperature),
   ("Humidity".toList, .humidity), ("Pressure".toList, .pressure),
   ("Battery".toList, .battery)]

/-- The record each block of a well-formed input builds, blockwise. -/
def blocksDevices : List (JSString × List JSString) → Except Err (List Device)
  | [] => .ok []
  | bl :: bls =>
    match blockDevice bl.2 with
    | .ok d =>
      match blocksDevices bls with
      | .ok ds => .ok (d :: ds)
      | .error e => .error e
    | .error e => .error e

/-! ## Lemmas about the string primitives -/

theorem length_dropWhile_le (p : Char → Bool) (l : JSString) :
    (l.dropWhile p).length ≤ l.length := by
  induction l with
  | nil => simp
  | cons a r ih =>
    rw [List.dropWhile_cons]
    split
    · exact le_trans ih (Nat.le_succ _)
    · exact le_refl _

theorem withHead_ne_nil (l₁ : JSString) (S : List JSString) : withHead l₁ S ≠ [] := by
  cases S <;> simp [withHead]

theorem withHead_nil_of_ne (S : List JSString) (h : S ≠ []) : withHead [] S = S := by
  cases S with
  | nil => exact absurd rfl h
  | cons s ss => simp [withHead]

theorem withHead_withHead (l₁ l₂ : JSString) (S : List JSString) :
    withHead l₁ (withHead l₂ S) = withHead (l₁ ++ l₂) S := by
  cases S <;> simp [withHead]

theorem splitEach_ne_nil (p : Char → Bool) (l : JSString) : splitEach p l ≠ [] := by
  cases l with
  | nil => simp [splitEach]
  | cons a r =>
    simp only [splitEach]
    split
    · simp
    · exact withHead_ne_nil _ _

theorem splitEach_append (p : Char → Bool) (l₁ l₂ : JSString)
    (h : ∀ c ∈ l₁, p c = false) :
    splitEach p (l₁ ++ l₂) = withHead l₁ (splitEach p l₂) := by
  induction l₁ with
  | nil =>
    rw [List.nil_append, withHead_nil_of_ne _ (splitEach_ne_nil p l₂)]
  | cons a r ih =>
    have ha : p a = false := h a (by simp)
    rw [List.cons_append]
    simp only [splitEach, ha, Bool.false_eq_true, if_false]
    rw [ih (fun c hc => h c (by simp [hc])), withHead_withHead]
    rfl

theorem splitEach_single (p : Char → Bool) (l : JSString)
    (h : ∀ c ∈ l, p c = false) : splitEach p l = [l] := by
  have h2 := splitEach_append p l [] h
  simpa [splitEach, withHead] using h2

theorem splitEach_cut (p : Char → Bool) (l₁ l₂ : JSString) (c : Char)
    (hc : p c = true) (h₁ : ∀ x ∈ l₁, p x = false) (h₂ : ∀ x ∈ l₂, p x = false) :
    splitEach p (l₁ ++ c :: l₂) = [l₁, l₂] := by
  rw [splitEach_append p l₁ _ h₁]
  simp only [splitEach, hc, if_true]
  rw [splitEach_single p l₂ h₂]
  simp [withHead]

theorem splitCWF_irrel (f₁ : Nat) : ∀ (f₂ : Nat) (l : JSString),
    l.length ≤ f₁ → l.length ≤ f₂ → splitCWF f₁ l = splitCWF f₂ l := by
  induction f₁ with
  | zero =>
    intro f₂ l h₁ _
    have hl : l = [] := by
      cases l with
      | nil => rfl
      | cons a r => simp at h₁
    subst hl
    cases f₂ <;> rfl
  | succ f ih =>
    intro f₂ l h₁ h₂
    cases l with
    | nil => cases f₂ <;> rfl
    | cons a r =>
      cases f₂ with
      | zero => simp at h₂
      | succ f₂' =>
        have hr₁ : r.length ≤ f := Nat.succ_le_succ_iff.mp (by simpa using h₁)
        have hr₂ : r.length ≤ f₂' := Nat.succ_le_succ_iff.mp (by simpa using h₂)
        simp only [splitCWF]
        split
        · rw [ih f₂' _ (le_trans (length_dropWhile_le _ _) hr₁)
            (le_trans (length_dropWhile_le _ _) hr₂)]
        · rw [ih f₂' r hr₁ hr₂]

theorem splitColonWs_nil : splitColonWs [] = [[]] := rfl

theorem splitColonWs_cons (a : Char) (rest : JSString) :
    splitColonWs (a :: rest) =
      if a = ':' ∧ headWs rest = true then
        [] :: splitColonWs (rest.dropWhile jsWhitespace)
      else withHead [a] (splitColonWs rest) := by
  show splitCWF (rest.length + 1) (a :: rest) = _
  simp only [splitCWF]
  split
  · rw [splitColonWs, splitCWF_irrel rest.length _ _ (length_dropWhile_le _ _) le_rfl]
  · rfl

theorem splitColonWs_ne_nil (l : JSString) : splitColonWs l ≠ [] := by
  cases l with
  | nil => simp [splitColonWs_nil]
  | cons a r =>
    rw [splitColonWs_cons]
    split
    · simp
    · exact withHead_ne_nil _ _

theorem splitColonWs_append (l₁ l₂ : JSString) (h : ∀ c ∈ l₁, c ≠ ':') :
    splitColonWs (l₁ ++ l₂) = withHead l₁ (splitColonWs l₂) := by
  induction l₁ with
  | nil => rw [List.nil_append, withHead_nil_of_ne _ (splitColonWs_ne_nil l₂)]
  | cons a r ih =>
    have ha : a ≠ ':' := h a (by simp)
    rw [List.cons_append, splitColonWs_cons, if_neg (fun hh => ha hh.1),
      ih (fun c hc => h c (by simp [hc])), withHead_withHead]
    rfl

theorem splitColonWs_single (l : JSString) (h : ∀ c ∈ l, c ≠ ':') :
    splitColonWs l = [l] := by
  have h2 := splitColonWs_append l [] h
  simpa [splitColonWs_nil, withHead] using h2

theorem dropWhile_eq_self_of_head (p : Char → Bool) (l : JSString)
    (h : ∀ x, l.head? = some x → p x = false) : l.dropWhile p = l := by
  cases l with
  | nil => rfl
  | cons a r => simp [List.dropWhile_cons, h a rfl]

theorem splitColonWs_cut (w : Char) (t : JSString) (hw : jsWhitespace w = true)
    (ht : ∀ x, t.head? = some x → jsWhitespace x = false) :
    splitColonWs (':' :: w :: t) = [] :: splitColonWs t := by
  rw [splitColonWs_cons, if_pos ⟨rfl, by simp [headWs, hw]⟩]
  congr 1
  rw [List.dropWhile_cons, if_pos (by simp [hw]), dropWhile_eq_self_of_head _ _ ht]

theorem trim_eq_self (l : JSString)
    (h₁ : ∀ x, l.head? = some x → jsWhitespace x = false)
    (h₂ : ∀ x, l.getLast? = some x → jsWhitespace x = false) : trim l = l := by
  unfold trim
  rw [dropWhile_eq_self_of_head _ _ h₁,
    dropWhile_eq_self_of_head _ _
      (fun x hx => h₂ x (by rwa [List.head?_reverse] at hx)),
    List.reverse_reverse]

theorem head?_append_left (l₁ l₂ : JSString) (h : l₁ ≠ []) :
    (l₁ ++ l₂).head? = l₁.head? := by
  cases l₁ with
  | nil => exact absurd rfl h
  | cons a r => rfl

/-! ## Lemmas about the line handler -/

theorem lookupKey_eq_none_of_boundary (s : JSString) (hs : s.head? = some '=') :
    lookupKey s = none := by
  cases s with
  | nil => cases hs
  | cons a r =>
    have ha : a = '=' := by simpa using hs
    subst ha
    simp only [lookupKey]
    rw [if_neg (by intro h; injection h with h₁ _; exact absurd h₁ (by decide))]
    rw [if_neg (by intro h; injection h with h₁ _; exact absurd h₁ (by decide))]
    rw [if_neg (by intro h; injection h with h₁ _; exact absurd h₁ (by decide))]
    rw [if_neg (by intro h; injection h with h₁ _; exact absurd h₁ (by decide))]
    rw [if_neg (by intro h; injection h with h₁ _; exact absurd h₁ (by decide))]
    rw [if_neg (by intro h; injection h with h₁ _; exact absurd h₁ (by decide))]
    rw [if_neg (by intro h; injection h with h₁ _; exact absurd h₁ (by decide))]
    rw [if_neg (by intro h; injection h with h₁ _; exact absurd h₁ (by decide))]
    rw [if_neg (by intro h; injection h with h₁ _; exact absurd h₁ (by decide))]

theorem lineStep_boundary (st : Option Device × List Device) (l : JSString)
    (h : isBoundary l = true) :
    lineStep st l = .ok (some emptyDevice, st.2 ++ st.1.toList) := by
  unfold isBoundary at h
  rw [Bool.and_eq_true, Bool.not_eq_true', beq_iff_eq] at h
  obtain ⟨h1, h2⟩ := h
  obtain ⟨dq, devs⟩ := st
  cases dq <;>
    simp [lineStep, h1, h2, lookupKey_eq_none_of_boundary _ h2, Option.toList]

theorem lineStep_skip (st : Option Device × List Device) (l : JSString)
    (h : skipLine l = true) : lineStep st l = .ok st := by
  unfold skipLine at h
  rw [Bool.or_eq_true] at h
  cases h with
  | inl h => simp [lineStep, h]
  | inr h =>
    rw [Bool.and_eq_true, Bool.not_eq_true', Option.isNone_iff_eq_none] at h
    obtain ⟨hb, hk⟩ := h
    by_cases he : l.isEmpty
    · simp [lineStep, he]
    · unfold isBoundary at hb
      rw [Bool.and_eq_false_iff] at hb
      have hne : ¬((splitColonWs (trim l)).headI.head? = some '=') := by
        cases hb with
        | inl hb => rw [Bool.not_eq_false'] at hb; exact absurd hb he
        | inr hb => simpa using hb
      simp [lineStep, he, hne, hk]

theorem skipLine_not_boundary (l : JSString) (h : skipLine l = true) :
    isBoundary l = false := by
  unfold skipLine at h
  rw [Bool.or_eq_true] at h
  cases h with
  | inl h => unfold isBoundary; simp [h]
  | inr h =>
    rw [Bool.and_eq_true, Bool.not_eq_true'] at h
    exact h.1

theorem processField_safe (d : Device) (k : FieldKey) (sv : Option JSString)
    (h1 : sv = none → k = .name)
    (h2 : ∀ s, sv = some s → k = .temperature →
      ((splitEach jsWhitespace s).get? 1).isSome = true) :
    ∃ d', processField (some d) k sv = .ok d' := by
  cases k with
  | name => cases sv <;> exact ⟨_, rfl⟩
  | temperature =>
    cases sv with
    | none => exact absurd (h1 rfl) (by decide)
    | some s =>
      obtain ⟨u, hu⟩ := Option.isSome_iff_exists.mp (h2 s rfl rfl)
      rw [List.get?_eq_getElem?] at hu
      exact ⟨setField d .temperature
        ⟨if jsNumber (splitEach jsWhitespace s).headI = .nan then .str s
          else .num (jsNumber (splitEach jsWhitespace s).headI),
         unitField (some (normalizeTempUnit u))⟩, by simp [processField, hu]⟩
  | address =>
    cases sv with
    | none => exact absurd (h1 rfl) (by decide)
    | some s => exact ⟨_, rfl⟩
  | co2 =>
    cases sv with
    | none => exact absurd (h1 rfl) (by decide)
    | some s => exact ⟨_, rfl⟩
  | humidity =>
    cases sv with
    | none => exact absurd (h1 rfl) (by decide)
    | some s => exact ⟨_, rfl⟩
  | pressure =>
    cases sv with
    | none => exact absurd (h1 rfl) (by decide)
    | some s => exact ⟨_, rfl⟩
  | battery =>
    cases sv with
    | none => exact absurd (h1 rfl) (by decide)
    | some s => exact ⟨_, rfl⟩
  | status =>
    cases sv with
    | none => exact absurd (h1 rfl) (by decide)
    | some s => exact ⟨_, rfl⟩
  | nextUpdate =>
    cases sv with
    | none => exact absurd (h1 rfl) (by decide)
    | some s => exact ⟨_, rfl⟩

theorem lineStep_safe (d : Device) (acc : List Device) (l : JSString)
    (h : safeLine l = true) :
    ∃ d', lineStep (some d, acc) l =
      .ok (some d', acc ++ if isBoundary l = true then [d] else []) := by
  by_cases he : l.isEmpty
  · have hb : isBoundary l = false := by unfold isBoundary; simp [he]
    exact ⟨d, by simp [lineStep, he, hb]⟩
  · cases hlk : lookupKey (splitColonWs (trim l)).headI with
    | none =>
      by_cases hbd : (splitColonWs (trim l)).headI.head? = some '='
      · have hB : isBoundary l = true := by unfold isBoundary; simp [he, hbd]
        refine ⟨emptyDevice, ?_⟩
        rw [lineStep_boundary _ _ hB]
        simp [hB, Option.toList]
      · have hB : isBoundary l = false := by unfold isBoundary; simp [hbd]
        exact ⟨d, by simp [lineStep, he, hbd, hlk, hB]⟩
    | some k =>
      have hbd : ¬((splitColonWs (trim l)).headI.head? = some '=') := fun hh => by
        rw [lookupKey_eq_none_of_boundary _ hh] at hlk; cases hlk
      have hB : isBoundary l = false := by unfold isBoundary; simp [hbd]
      unfold safeLine at h
      rw [Bool.or_eq_true] at h
      rcases h with h | h
      · exact absurd h he
      · simp only [hlk, List.get?_eq_getElem?] at h
        cases hsv : (splitColonWs (trim l))[1]? with
        | none =>
          rw [hsv] at h
          have hk : k = .name := by simpa using h
          subst hk
          refine ⟨setField d .name ⟨valOfOpt none, none⟩, ?_⟩
          simp [lineStep, he, hbd, hlk, hsv, hB, processField]
        | some s =>
          rw [hsv] at h
          obtain ⟨d', hd'⟩ := processField_safe d k (some s)
            (by intro hh; cases hh)
            (by intro s₂ hs₂ hkt
                injection hs₂ with hs₂
                subst hs₂
                subst hkt
                simpa using h)
          refine ⟨d', ?_⟩
          simp [lineStep, he, hbd, hlk, hsv, hB, hd']

/-! ## Lemmas about the loop -/

theorem runLines_append (xs ys : List JSString) (st st' : Option Device × List Device)
    (h : runLines st xs = .ok st') : runLines st (xs ++ ys) = runLines st' ys := by
  induction xs generalizing st with
  | nil =>
    simp only [runLines] at h
    injection h with h
    subst h
    rfl
  | cons x xs ih =>
    rw [List.cons_append]
    simp only [runLines] at h ⊢
    cases hx : lineStep st x with
    | ok st₁ => rw [hx] at h; exact ih st₁ h
    | error e => rw [hx] at h; cases h

theorem runLines_skip (ls : List JSString) (st : Option Device × List Device)
    (h : ∀ l ∈ ls, skipLine l = true) : runLines st ls = .ok st := by
  induction ls with
  | nil => rfl
  | cons l ls ih =>
    simp only [runLines, lineStep_skip st l (h l (by simp))]
    exact ih (fun x hx => h x (by simp [hx]))

theorem runLines_safe (ls : List JSString) :
    ∀ (d : Device) (acc : List Device), (∀ l ∈ ls, safeLine l = true) →
    ∃ d' acc', runLines (some d, acc) ls = .ok (some d', acc') ∧
      acc'.length = acc.length + countB ls := by
  induction ls with
  | nil => exact fun d acc _ => ⟨d, acc, rfl, by simp [countB]⟩
  | cons l ls ih =>
    intro d acc h
    obtain ⟨d₁, hstep⟩ := lineStep_safe d acc l (h l (by simp))
    obtain ⟨d', acc', hrun, hlen⟩ :=
      ih d₁ (acc ++ if isBoundary l = true then [d] else [])
        (fun x hx => h x (by simp [hx]))
    refine ⟨d', acc', ?_, ?_⟩
    · simp only [runLines, hstep]; exact hrun
    · rw [hlen]
      unfold countB
      rw [List.countP_cons]
      cases hb : isBoundary l
      · simp [hb]
      · simp [hb]; omega

theorem lineStep_eq_devStep (d : Device) (acc : List Device) (l : JSString)
    (hB : isBoundary l = false) :
    lineStep (some d, acc) l =
      match devStep d l with
      | .ok d' => .ok (some d', acc)
      | .error e => .error e := by
  by_cases he : l.isEmpty
  · simp [lineStep, devStep, he]
  · have hbd : ¬((splitColonWs (trim l)).headI.head? = some '=') := by
      intro hh
      unfold isBoundary at hB
      simp [he, hh] at hB
    simp only [lineStep, devStep, he, Bool.false_eq_true, if_false, if_neg hbd]
    cases lookupKey (splitColonWs (trim l)).headI with
    | none => rfl
    | some k =>
      cases processField (some d) k ((splitColonWs (trim l)).get? 1) <;> rfl

theorem devStep_safe (d : Device) (l : JSString) (hs : safeLine l = true)
    (hB : isBoundary l = false) : ∃ d', devStep d l = .ok d' := by
  obtain ⟨d', hd⟩ := lineStep_safe d [] l hs
  rw [lineStep_eq_devStep d [] l hB] at hd
  cases hdev : devStep d l with
  | ok x => exact ⟨x, rfl⟩
  | error e => rw [hdev] at hd; cases hd

theorem runLines_block (fs : List JSString) :
    ∀ (d : Device) (acc : List Device),
    (∀ l ∈ fs, safeLine l = true ∧ isBoundary l = false) →
    ∃ d', runDev d fs = .ok d' ∧ runLines (some d, acc) fs = .ok (some d', acc) := by
  induction fs with
  | nil => exact fun d acc _ => ⟨d, rfl, rfl⟩
  | cons l fs ih =>
    intro d acc h
    obtain ⟨hs, hb⟩ := h l (by simp)
    obtain ⟨d₁, hd₁⟩ := devStep_safe d l hs hb
    obtain ⟨d', hrd, hrl⟩ := ih d₁ acc (fun x hx => h x (by simp [hx]))
    refine ⟨d', ?_, ?_⟩
    · simp only [runDev, hd₁]; exact hrd
    · simp only [runLines, lineStep_eq_devStep d acc l hb, hd₁]; exact hrl

theorem runLines_blocks (blocks : List (JSString × List JSString)) :
    ∀ (d : Device) (acc : List Device),
    (∀ bl ∈ blocks, isBoundary bl.1 = true ∧
      ∀ l ∈ bl.2, safeLine l = true ∧ isBoundary l = false) →
    ∃ ds, blocksDevices blocks = .ok ds ∧ ds.length = blocks.length ∧
      ∃ st', runLines (some d, acc) (blocks.map blockLines).flatten = .ok st' ∧
        st'.2 ++ st'.1.toList = acc ++ d :: ds := by
  induction blocks with
  | nil =>
    exact fun d acc _ => ⟨[], rfl, rfl, (some d, acc), rfl, by simp [Option.toList]⟩
  | cons bl bls ih =>
    intro d acc h
    obtain ⟨hbB, hbf⟩ := h bl (by simp)
    obtain ⟨d₁, hrd, hrl⟩ := runLines_block bl.2 emptyDevice (acc ++ [d]) hbf
    obtain ⟨ds, hmap, hlen, st', hrun, happ⟩ :=
      ih d₁ (acc ++ [d]) (fun x hx => h x (by simp [hx]))
    refine ⟨d₁ :: ds, ?_, by simp [hlen], st', ?_, ?_⟩
    · simp only [blocksDevices, blockDevice, hrd, hmap]
    · have hflat : (List.map blockLines (bl :: bls)).flatten =
          bl.1 :: (bl.2 ++ (List.map blockLines bls).flatten) := by
        simp [blockLines]
      rw [hflat]
      simp only [runLines, lineStep_boundary (some d, acc) bl.1 hbB, Option.toList]
      rw [runLines_append bl.2 _ _ _ hrl]
      exact hrun
    · rw [happ]; simp

theorem countB_blocks (blocks : List (JSString × List JSString))
    (h : ∀ bl ∈ blocks, isBoundary bl.1 = true ∧
      ∀ l ∈ bl.2, safeLine l = true ∧ isBoundary l = false) :
    countB (blocks.map blockLines).flatten = blocks.length := by
  induction blocks with
  | nil => rfl
  | cons bl bls ih =>
    obtain ⟨h1, h2⟩ := h bl (by simp)
    have hflat : (List.map blockLines (bl :: bls)).flatten =
        (bl.1 :: bl.2) ++ (List.map blockLines bls).flatten := by
      simp [blockLines]
    rw [hflat]
    unfold countB
    rw [List.countP_append, List.countP_cons]
    have hz : List.countP isBoundary bl.2 = 0 :=
      List.countP_eq_zero.mpr (by intro a ha; simp [(h2 a ha).2])
    have := ih (fun x hx => h x (by simp [hx]))
    unfold countB at this
    rw [this, hz, h1]
    simp [Nat.add_comm]

theorem getField_setField (d : Device) (k : FieldKey) (f : Field) :
    getField (setField d k f) k = some f := by
  cases k <;> rfl

/-! ## Lemmas about single recognized field lines -/

theorem mem_of_head? (l : JSString) (x : Char) (h : l.head? = some x) : x ∈ l := by
  cases l with
  | nil => cases h
  | cons a r =>
    injection h with h
    subst h
    exact List.mem_cons_self a r

theorem mem_of_getLast? (l : JSString) (x : Char) (h : l.getLast? = some x) : x ∈ l := by
  rw [← List.head?_reverse] at h
  have := mem_of_head? l.reverse x h
  simpa using this

theorem goodTok_spec (t : JSString) (h : goodTok t = true) :
    t ≠ [] ∧ (∀ c ∈ t, jsWhitespace c = false) ∧ (∀ c ∈ t, c ≠ ':') := by
  unfold goodTok at h
  rw [Bool.and_eq_true, List.all_eq_true] at h
  obtain ⟨h1, h2⟩ := h
  refine ⟨by simpa using h1, ?_, ?_⟩
  · intro c hc
    have h3 := h2 c hc
    rw [Bool.and_eq_true] at h3
    simpa using h3.1
  · intro c hc
    have h3 := h2 c hc
    rw [Bool.and_eq_true] at h3
    simpa using h3.2

theorem lineStep_field (st : Option Device × List Device) (lab rest : JSString)
    (k : FieldKey) (c : Char)
    (hk : lookupKey lab = some k)
    (hh : lab.head? = some c) (hcw : jsWhitespace c = false) (hcb : c ≠ '=')
    (hlc : ∀ x ∈ lab, x ≠ ':')
    (hr : rest ≠ [])
    (hrh : ∀ x, rest.head? = some x → jsWhitespace x = false)
    (hrl : ∀ x, rest.getLast? = some x → jsWhitespace x = false) :
    lineStep st (lab ++ ':' :: ' ' :: rest) =
      match processField st.1 k (some ((splitColonWs rest).headI)) with
      | .ok d => .ok (some d, st.2)
      | .error e => .error e := by
  have hlab : lab ≠ [] := by intro h; rw [h] at hh; cases hh
  have hline : (lab ++ ':' :: ' ' :: rest) ≠ [] := by
    intro h
    exact hlab (List.append_eq_nil.mp h).1
  have hemp : (lab ++ ':' :: ' ' :: rest).isEmpty = false := by
    cases hl : (lab ++ ':' :: ' ' :: rest) with
    | nil => exact absurd hl hline
    | cons a r => rfl
  have hhead : (lab ++ ':' :: ' ' :: rest).head? = some c := by
    rw [head?_append_left _ _ hlab]; exact hh
  have hlast : (lab ++ ':' :: ' ' :: rest).getLast? = rest.getLast? := by
    rw [List.getLast?_append_cons lab ':' (' ' :: rest), List.getLast?_cons_cons]
    cases rest with
    | nil => exact absurd rfl hr
    | cons r₀ rest' => rw [List.getLast?_cons_cons]
  have htrim : trim (lab ++ ':' :: ' ' :: rest) = lab ++ ':' :: ' ' :: rest := by
    apply trim_eq_self
    · intro x hx
      rw [hhead] at hx
      injection hx with hx
      subst hx
      exact hcw
    · intro x hx
      rw [hlast] at hx
      exact hrl x hx
  have hsplit : splitColonWs (lab ++ ':' :: ' ' :: rest) = lab :: splitColonWs rest := by
    rw [splitColonWs_append lab _ hlc, splitColonWs_cut ' ' rest (by decide) hrh]
    simp [withHead]
  obtain ⟨s₀, ss, hS⟩ : ∃ s₀ ss, splitColonWs rest = s₀ :: ss := by
    cases hS : splitColonWs rest with
    | nil => exact absurd hS (splitColonWs_ne_nil rest)
    | cons a b => exact ⟨a, b, rfl⟩
  simp only [lineStep, hemp, Bool.false_eq_true, if_false, htrim, hsplit, hS,
    List.headI_cons, hh, hk, List.get?_eq_getElem?]
  rw [if_neg (by simp [hcb])]
  simp

theorem processField_numeric_val (d : Device) (k : FieldKey) (s t u : JSString)
    (hk : k = .co2 ∨ k = .temperature ∨ k = .humidity ∨ k = .pressure ∨ k = .battery)
    (hs : splitEach jsWhitespace s = [t, u]) (hu : u ≠ []) :
    processField (some d) k (some s) =
      .ok (setField d k
        ⟨if jsNumber t = .nan then .str s else .num (jsNumber t),
         some (if k = .temperature then normalizeTempUnit u else u)⟩) := by
  have hun : unitField (some u) = some u := by
    cases u with
    | nil => exact absurd rfl hu
    | cons a r => simp [unitField]
  have hnt : unitField (some (normalizeTempUnit u)) = some (normalizeTempUnit u) := by
    unfold normalizeTempUnit
    split <;> decide
  rcases hk with h | h | h | h | h <;> subst h <;>
    simp [processField, hs, hun, hnt]

theorem processField_status (d : Device) (s : JSString)
    (hws : splitEach jsWhitespace s = [s]) :
    processField (some d) .status (some s) =
      .ok (setField d .status
        ⟨.num (.fin ((statusesIndexOf
            (if jsNumber s = .nan then .str s else .num (jsNumber s)) + 1 : Int) : Rat)),
         none⟩) := by
  simp [processField, hws, unitField]

theorem processField_age (d : Device) (s e t : JSString) (a b : Rat)
    (hws : splitEach jsWhitespace s = [s])
    (hsl : splitEach (fun c => c == '/') s = [e, t])
    (hna : jsNumber e = .fin a) (hnb : jsNumber t = .fin b) :
    processField (some d) .nextUpdate (some s) =
      .ok (setField { d with age := some ⟨.fin a, .fin b⟩ } .nextUpdate
        ⟨.num (.fin ((b - a) * 1000)), none⟩) := by
  simp [processField, hws, hsl, hna, hnb, unitField, jsNumOfOpt, jsSub, jsMul]

theorem processField_name (d : Device) (sv : Option JSString) :
    processField (some d) .name sv = .ok (setField d .name ⟨valOfOpt sv, none⟩) := rfl

theorem head?_of_goodTok_append (t : JSString) (rest : JSString)
    (htn : t ≠ []) (htw : ∀ c ∈ t, jsWhitespace c = false) :
    ∀ x, (t ++ rest).head? = some x → jsWhitespace x = false := by
  intro x hx
  rw [head?_append_left _ _ htn] at hx
  exact htw x (mem_of_head? t x hx)

theorem getLast?_of_goodTok_append (pre : JSString) (c : Char) (u : JSString)
    (hun : u ≠ []) (huw : ∀ x ∈ u, jsWhitespace x = false) :
    ∀ x, (pre ++ c :: u).getLast? = some x → jsWhitespace x = false := by
  intro x hx
  rw [List.getLast?_append_cons] at hx
  cases u with
  | nil => exact absurd rfl hun
  | cons u₀ u' =>
    rw [List.getLast?_cons_cons] at hx
    exact huw x (mem_of_getLast? _ x hx)

theorem boundary_first_step :
    lineStep (none, []) "=".toList = .ok (some emptyDevice, []) := by
  rw [lineStep_boundary _ _ (by decide)]
  rfl

/-- Assembled two-line run: one boundary line, then one numeric field line
`lab: t u` for one of the five numeric keys. -/
theorem parseLines_numeric (lab : JSString) (k : FieldKey) (c : Char) (t u : JSString)
    (hk : lookupKey lab = some k)
    (hknum : k = .co2 ∨ k = .temperature ∨ k = .humidity ∨ k = .pressure ∨ k = .battery)
    (hh : lab.head? = some c) (hcw : jsWhitespace c = false) (hcb : c ≠ '=')
    (hlc : ∀ x ∈ lab, x ≠ ':')
    (ht : goodTok t = true) (hu : goodTok u = true) :
    parseLines ["=".toList, lab ++ ':' :: ' ' :: (t ++ ' ' :: u)] =
      .ok [setField emptyDevice k
        ⟨if jsNumber t = .nan then .str (t ++ ' ' :: u) else .num (jsNumber t),
         some (if k = .temperature then normalizeTempUnit u else u)⟩] := by
  obtain ⟨htn, htw, htc⟩ := goodTok_spec t ht
  obtain ⟨hun, huw, huc⟩ := goodTok_spec u hu
  have hrne : (t ++ ' ' :: u) ≠ [] := by
    intro h
    exact htn (List.append_eq_nil.mp h).1
  have hsp : splitColonWs (t ++ ' ' :: u) = [t ++ ' ' :: u] := by
    apply splitColonWs_single
    intro x hx
    rcases List.mem_append.mp hx with h | h
    · exact htc x h
    · rcases List.mem_cons.mp h with h | h
      · subst h; decide
      · exact huc x h
  have hws : splitEach jsWhitespace (t ++ ' ' :: u) = [t, u] :=
    splitEach_cut _ _ _ _ (by decide) htw huw
  have hstep := lineStep_field (some emptyDevice, []) lab (t ++ ' ' :: u) k c hk hh hcw hcb hlc
    hrne (head?_of_goodTok_append t _ htn htw) (getLast?_of_goodTok_append t ' ' u hun huw)
  rw [hsp] at hstep
  simp only [List.headI_cons] at hstep
  rw [processField_numeric_val emptyDevice k (t ++ ' ' :: u) t u hknum hws hun] at hstep
  unfold parseLines
  simp only [runLines, boundary_first_step, hstep]
  rfl

/-- The value stored for a `Status Display` line carrying the single token
`t`, as a four-way tier table. -/
theorem statusTier (t : JSString) :
    ((statusesIndexOf (if jsNumber t = .nan then .str t else .num (jsNumber t)) + 1 : Int) : Rat) =
      if t = "GREEN".toList then 1
      else if t = "ORANGE".toList then 2
      else if t = "RED".toList then 3
      else 0 := by
  by_cases hg : t = ['G', 'R', 'E', 'E', 'N']
  · subst hg; decide
  · by_cases ho : t = ['O', 'R', 'A', 'N', 'G', 'E']
    · subst ho; decide
    · by_cases hr : t = ['R', 'E', 'D']
      · subst hr; decide
      · by_cases hn : jsNumber t = .nan
        · simp [hn, statusesIndexOf, hg, ho, hr]
        · simp [hn, statusesIndexOf, hg, ho, hr]

theorem getLast?_ws_free_tail (pre u : JSString) (hun : u ≠ [])
    (huw : ∀ x ∈ u, jsWhitespace x = false) :
    ∀ x, (pre ++ u).getLast? = some x → jsWhitespace x = false := by
  intro x hx
  rw [List.getLast?_append_of_ne_nil pre hun] at hx
  exact huw x (mem_of_getLast? u x hx)

/-! ## Claim C1 -/

/-- C1 (counterexample): the claim "parse never raises because of a
malformed individual field value, and inputs with zero boundary markers
yield the empty sequence" is false on the code: a recognized field line
before any boundary marker writes a property of `undefined` (here an input
with zero boundary-marker lines raises instead of returning the empty
sequence), and a `Temperature` line without a unit token calls `.endsWith`
on `undefined`. -/
theorem parse_raises_on_unguarded_lines :
    parse "CO2: 600 ppm".toList = .error .writeToUndefined ∧
    countB (splitEach (fun c => c == '\n') "CO2: 600 ppm".toList) = 0 ∧
    parse "= x =\nTemperature: 21.5".toList = .error .unitOfUndefined := by
  decide

/-- C1 (amended): `parse` raises no error provided every recognized field
line appears after a boundary-marker line, carries a rest after its label,
and every `Temperature` line carries a unit token; in particular, an input
with zero boundary-marker lines whose lines are all ignored (empty or
unrecognized labels) yields the empty sequence.  Malformed field *values*
on such lines never raise (they degrade to the raw string or a
sentinel). -/
theorem parse_total_on_guarded_input
    (input : JSString) (pre rest : List JSString)
    (hsplit : splitEach (fun c => c == '\n') input = pre ++ rest)
    (hpre : ∀ l ∈ pre, skipLine l = true)
    (hrest : ∀ l ∈ rest, safeLine l = true)
    (hhead : ∀ l, rest.head? = some l → isBoundary l = true) :
    (∃ ds, parse input = .ok ds) ∧ (rest = [] → parse input = .ok []) := by
  have hskip : runLines (none, []) pre = .ok (none, []) := runLines_skip pre _ hpre
  cases rest with
  | nil =>
    have hdone : parse input = .ok [] := by
      unfold parse parseLines
      rw [hsplit, List.append_nil, hskip]
      rfl
    exact ⟨⟨[], hdone⟩, fun _ => hdone⟩
  | cons b rest' =>
    have hb : isBoundary b = true := hhead b rfl
    obtain ⟨d', acc', hrun, _⟩ := runLines_safe rest' emptyDevice []
      (fun l hl => hrest l (by simp [hl]))
    have hchain : runLines (none, []) (pre ++ b :: rest') = .ok (some d', acc') := by
      rw [runLines_append pre (b :: rest') _ _ hskip]
      simp only [runLines, lineStep_boundary (none, []) b hb, Option.toList]
      exact hrun
    refine ⟨⟨acc' ++ [d'], ?_⟩, fun h => by cases h⟩
    unfold parse parseLines
    rw [hsplit, hchain]
    rfl

/-- C1 witness. -/
theorem parse_total_on_guarded_input_witness :
    parse "hello\n\nworld: x".toList = .ok [] :=
  (parse_total_on_guarded_input "hello\n\nworld: x".toList
    ["hello".toList, [], "world: x".toList] [] (by decide) (by decide)
    (fun l hl => absurd hl (List.not_mem_nil l))
    (fun l hl => Option.noConfusion hl)).2 rfl

/-! ## Claim C4 -/

/-- C4: on a well-formed input — ignorable lines, then blocks each opened
by a boundary-marker line (label starting `=`) and containing only safe
non-boundary field lines — `parse` succeeds with exactly one record per
boundary marker, in block order (`blocksDevices`), and the number of
boundary-marker lines equals the number of blocks. -/
theorem parse_boundary_count
    (input : JSString) (pre : List JSString)
    (blocks : List (JSString × List JSString))
    (hsplit : splitEach (fun c => c == '\n') input =
      pre ++ (blocks.map blockLines).flatten)
    (hpre : ∀ l ∈ pre, skipLine l = true)
    (hblocks : ∀ bl ∈ blocks, isBoundary bl.1 = true ∧
      ∀ l ∈ bl.2, safeLine l = true ∧ isBoundary l = false) :
    ∃ ds, parse input = .ok ds ∧ ds.length = blocks.length ∧
      blocksDevices blocks = .ok ds ∧
      countB (splitEach (fun c => c == '\n') input) = blocks.length := by
  have hskip : runLines (none, []) pre = .ok (none, []) := runLines_skip pre _ hpre
  have hcount : countB (splitEach (fun c => c == '\n') input) = blocks.length := by
    rw [hsplit]
    unfold countB
    rw [List.countP_append]
    have h0 : List.countP isBoundary pre = 0 :=
      List.countP_eq_zero.mpr
        (by intro a ha; simp [skipLine_not_boundary a (hpre a ha)])
    have h1 := countB_blocks blocks hblocks
    unfold countB at h1
    rw [h0, h1, Nat.zero_add]
  cases blocks with
  | nil =>
    refine ⟨[], ?_, rfl, rfl, hcount⟩
    unfold parse parseLines
    rw [hsplit]
    simp only [List.map_nil, List.flatten_nil, List.append_nil]
    rw [hskip]
    rfl
  | cons bl bls =>
    obtain ⟨hbB, hbf⟩ := hblocks bl (by simp)
    obtain ⟨d₁, hrd, hrl⟩ := runLines_block bl.2 emptyDevice [] hbf
    obtain ⟨ds', hmap, hlen, st', hrun, happ⟩ :=
      runLines_blocks bls d₁ [] (fun x hx => hblocks x (by simp [hx]))
    obtain ⟨dev', devs'⟩ := st'
    simp only [List.nil_append] at happ
    refine ⟨d₁ :: ds', ?_, by simp [hlen], ?_, hcount⟩
    · unfold parse parseLines
      rw [hsplit]
      have hflat : (List.map blockLines (bl :: bls)).flatten =
          bl.1 :: (bl.2 ++ (List.map blockLines bls).flatten) := by
        simp [blockLines]
      rw [hflat, runLines_append pre _ _ _ hskip]
      simp only [runLines, lineStep_boundary (none, []) bl.1 hbB, Option.toList,
        List.nil_append]
      rw [runLines_append bl.2 _ _ _ hrl, hrun]
      exact congrArg Except.ok happ
    · simp only [blocksDevices, blockDevice, hrd, hmap]

/-- C4 witness. -/
theorem parse_boundary_count_witness :
    ∃ ds, parse "= A =\nCO2: 5 ppm\n= B =\nName: x".toList = .ok ds ∧
      ds.length = 2 ∧
      blocksDevices [("= A =".toList, ["CO2: 5 ppm".toList]),
        ("= B =".toList, ["Name: x".toList])] = .ok ds ∧
      countB (splitEach (fun c => c == '\n')
        "= A =\nCO2: 5 ppm\n= B =\nName: x".toList) = 2 :=
  parse_boundary_count "= A =\nCO2: 5 ppm\n= B =\nName: x".toList []
    [("= A =".toList, ["CO2: 5 ppm".toList]), ("= B =".toList, ["Name: x".toList])]
    (by decide) (by decide) (by decide)

/-! ## Claim C9 -/

/-- C9: a boundary-marker line immediately followed by another
boundary-marker line emits a record with zero populated fields — the
in-progress record is pushed, never dropped. -/
theorem adjacent_boundaries_emit_empty_records (l₁ l₂ : JSString)
    (h₁ : isBoundary l₁ = true) (h₂ : isBoundary l₂ = true) :
    parseLines [l₁, l₂] = .ok [emptyDevice, emptyDevice] := by
  unfold parseLines
  simp only [runLines, lineStep_boundary (none, []) l₁ h₁, Option.toList,
    List.nil_append]
  simp only [lineStep_boundary (some emptyDevice, []) l₂ h₂, Option.toList]
  rfl

/-- C9 witness. -/
theorem adjacent_boundaries_emit_empty_records_witness :
    parseLines ["= A =".toList, "= B =".toList] = .ok [emptyDevice, emptyDevice] :=
  adjacent_boundaries_emit_empty_records "= A =".toList "= B =".toList
    (by decide) (by decide)

/-! ## Claim C8 -/

/-- C8: for both the scan and the targeted read, a non-empty `stderr`
rejects with exactly that message (whatever `stdout` is — it is never
parsed), while an empty `stderr` never yields the stderr rejection: the
operation proceeds to parsing. -/
theorem stderr_short_circuit (stdout stderr : JSString) :
    (stderr ≠ [] →
      getAranet4Devices stdout stderr = .rejected stderr ∧
      getSensorData stdout stderr = .rejected stderr) ∧
    (stderr = [] →
      (∀ m, getAranet4Devices stdout stderr ≠ .rejected m) ∧
      (∀ m, getSensorData stdout stderr ≠ .rejected m)) := by
  constructor
  · intro hne
    have he : stderr.isEmpty = false := by
      cases stderr with
      | nil => exact absurd rfl hne
      | cons a r => rfl
    exact ⟨by simp [getAranet4Devices, he], by simp [getSensorData, he]⟩
  · intro h
    subst h
    constructor <;> intro m
    · cases hp : parse stdout with
      | error e => simp [getAranet4Devices, hp]
      | ok ds =>
        cases hw : wrapDevices ds with
        | error e => simp [getAranet4Devices, hp, hw]
        | ok as => simp [getAranet4Devices, hp, hw]
    · cases hp : parse stdout with
      | error e => simp [getSensorData, hp]
      | ok ds =>
        simp only [getSensorData, hp, List.isEmpty_nil, Bool.not_true,
          Bool.false_eq_true, if_false]
        split
        · simp
        · split <;> simp

/-- C8 witness. -/
theorem stderr_short_circuit_witness :
    getAranet4Devices "ignored output".toList "boom".toList =
      .rejected "boom".toList ∧
    getSensorData "ignored output".toList "boom".toList =
      .rejected "boom".toList ∧
    getSensorData "".toList [] ≠ .rejected [] :=
  ⟨((stderr_short_circuit "ignored output".toList "boom".toList).1 (by decide)).1,
   ((stderr_short_circuit "ignored output".toList "boom".toList).1 (by decide)).2,
   ((stderr_short_circuit "".toList []).2 rfl).2 []⟩

/-! ## Claim C10 -/

/-- C10: with empty stderr, `getSensorData` returns exactly the co2,
temperature, pressure, humidity and battery values of the *first* record
`parse` produces, whatever further records follow. -/
theorem sensor_data_first_record (stdout : JSString) (d : Device)
    (ds : List Device) (c t p h b : Field)
    (hp : parse stdout = .ok (d :: ds))
    (hc : d.co2 = some c) (ht : d.temperature = some t) (hpr : d.pressure = some p)
    (hh : d.humidity = some h) (hb : d.battery = some b) :
    getSensorData stdout [] = .ok ⟨c.value, t.value, p.value, h.value, b.value⟩ := by
  simp [getSensorData, hp, hc, ht, hpr, hh, hb]

/-- C10 witness: two records in the output, the reading comes from the
first. -/
theorem sensor_data_first_record_witness :
    getSensorData
      "=\nCO2: 1 ppm\nTemperature: 2 C\nPressure: 3 hPa\nHumidity: 4 %\nBattery: 5 %\n=\nCO2: 9 ppm\nTemperature: 9 C\nPressure: 9 hPa\nHumidity: 9 %\nBattery: 9 %".toList
      [] =
    .ok ⟨.num (.fin 1), .num (.fin 2), .num (.fin 3), .num (.fin 4), .num (.fin 5)⟩ :=
  sensor_data_first_record _
    { co2 := some ⟨.num (.fin 1), some "ppm".toList⟩,
      temperature := some ⟨.num (.fin 2), some "celcius".toList⟩,
      pressure := some ⟨.num (.fin 3), some "hPa".toList⟩,
      humidity := some ⟨.num (.fin 4), some "%".toList⟩,
      battery := some ⟨.num (.fin 5), some "%".toList⟩ }
    [{ co2 := some ⟨.num (.fin 9), some "ppm".toList⟩,
       temperature := some ⟨.num (.fin 9), some "celcius".toList⟩,
       pressure := some ⟨.num (.fin 9), some "hPa".toList⟩,
       humidity := some ⟨.num (.fin 9), some "%".toList⟩,
       battery := some ⟨.num (.fin 9), some "%".toList⟩ }]
    ⟨.num (.fin 1), some "ppm".toList⟩ ⟨.num (.fin 2), some "celcius".toList⟩
    ⟨.num (.fin 3), some "hPa".toList⟩ ⟨.num (.fin 4), some "%".toList⟩
    ⟨.num (.fin 5), some "%".toList⟩
    (by decide) (by decide) (by decide) (by decide) (by decide) (by decide)

/-! ## Claim C2 -/

/-- C2 (counterexample): on `CO2: not-a-number ppm` the stored value is the
*entire rest string* `"not-a-number ppm"`, not the bare first token
`"not-a-number"` the claim asserts. -/
theorem numeric_fallback_keeps_full_rest :
    parse "=\nCO2: not-a-number ppm".toList =
      .ok [{ co2 := some ⟨.str "not-a-number ppm".toList, some "ppm".toList⟩ }] ∧
    Value.str "not-a-number ppm".toList ≠ Value.str "not-a-number".toList := by
  decide

/-- C2 (amended): for each of the five numeric labels, a line `lab: t u`
stores the numeric value of the first whitespace-separated token `t` when
it is a valid number; when it is not, it stores the entire rest string
`t ++ " " ++ u` (the raw token is not isolated in the fallback). -/
theorem numeric_field_value (lab : JSString) (k : FieldKey) (t u : JSString)
    (hmem : (lab, k) ∈ numericLabels)
    (ht : goodTok t = true) (hu : goodTok u = true) :
    ∃ d, parseLines ["=".toList, lab ++ ':' :: ' ' :: (t ++ ' ' :: u)] = .ok [d] ∧
      getField d k = some
        ⟨if jsNumber t = .nan then .str (t ++ ' ' :: u) else .num (jsNumber t),
         some (if k = .temperature then normalizeTempUnit u else u)⟩ := by
  have hm := hmem
  simp only [numericLabels, List.mem_cons, List.mem_singleton, Prod.mk.injEq,
    List.not_mem_nil, or_false] at hm
  rcases hm with ⟨hl, hk⟩ | ⟨hl, hk⟩ | ⟨hl, hk⟩ | ⟨hl, hk⟩ | ⟨hl, hk⟩ <;>
    subst hl <;> subst hk
  · exact ⟨_, parseLines_numeric _ _ 'C' t u (by decide) (by decide) (by decide)
      (by decide) (by decide) (by decide) ht hu, getField_setField _ _ _⟩
  · exact ⟨_, parseLines_numeric _ _ 'T' t u (by decide) (by decide) (by decide)
      (by decide) (by decide) (by decide) ht hu, getField_setField _ _ _⟩
  · exact ⟨_, parseLines_numeric _ _ 'H' t u (by decide) (by decide) (by decide)
      (by decide) (by decide) (by decide) ht hu, getField_setField _ _ _⟩
  · exact ⟨_, parseLines_numeric _ _ 'P' t u (by decide) (by decide) (by decide)
      (by decide) (by decide) (by decide) ht hu, getField_setField _ _ _⟩
  · exact ⟨_, parseLines_numeric _ _ 'B' t u (by decide) (by decide) (by decide)
      (by decide) (by decide) (by decide) ht hu, getField_setField _ _ _⟩

/-- C2 witness. -/
theorem numeric_field_value_witness :
    ∃ d, parseLines ["=".toList,
        "CO2".toList ++ ':' :: ' ' :: ("612".toList ++ ' ' :: "ppm".toList)] =
      .ok [d] ∧
      getField d .co2 = some ⟨.num (.fin 612), some "ppm".toList⟩ := by
  obtain ⟨d, h1, h2⟩ := numeric_field_value "CO2".toList .co2 "612".toList
    "ppm".toList (by decide) (by decide) (by decide)
  refine ⟨d, h1, ?_⟩
  rw [h2]
  decide

/-! ## Claim C3 -/

/-- C3 (counterexample): the normalized unit string for a unit token ending
in `C` is the misspelling `"celcius"`, not `"celsius"` as claimed. -/
theorem temperature_unit_spelled_celcius :
    parse "=\nTemperature: 21 C".toList =
      .ok [{ temperature := some ⟨.num (.fin 21), some "celcius".toList⟩ }] ∧
    "celcius".toList ≠ "celsius".toList := by
  decide

/-- C3 (amended): the stored temperature unit is a pure function of the raw
unit token: a token ending in `C` yields the string `"celcius"` (sic, as
spelled in the source), every other token yields `"fahrenheit"`. -/
theorem temperature_unit_normalization (t u : JSString)
    (ht : goodTok t = true) (hu : goodTok u = true) :
    ∃ d, parseLines ["=".toList,
        "Temperature".toList ++ ':' :: ' ' :: (t ++ ' ' :: u)] = .ok [d] ∧
      ∃ f, d.temperature = some f ∧
        f.unit = some (if u.getLast? = some 'C' then "celcius".toList
          else "fahrenheit".toList) := by
  have hp := parseLines_numeric "Temperature".toList .temperature 'T' t u
    (by decide) (by decide) (by decide) (by decide) (by decide) (by decide) ht hu
  refine ⟨_, hp, ?_⟩
  refine ⟨_, rfl, ?_⟩
  simp [normalizeTempUnit]

/-- C3 witness. -/
theorem temperature_unit_normalization_witness :
    ∃ d, parseLines ["=".toList,
        "Temperature".toList ++ ':' :: ' ' :: ("21.5".toList ++ ' ' :: "C".toList)] =
      .ok [d] ∧
      ∃ f, d.temperature = some f ∧ f.unit = some "celcius".toList := by
  obtain ⟨d, h1, f, h2, h3⟩ := temperature_unit_normalization "21.5".toList
    "C".toList (by decide) (by decide)
  exact ⟨d, h1, f, h2, by rw [h3]; decide⟩

/-! ## Claim C5 -/

/-- C5: a `Status Display` line stores 1 for the text `GREEN`, 2 for
`ORANGE`, 3 for `RED` and the sentinel 0 for any other single-token text,
and it never aborts the rest of the batch: a following device still
parses. -/
theorem status_display_tiering (t : JSString) (ht : goodTok t = true) :
    ∃ d₁ d₂, parseLines ["= 1 =".toList,
        "Status Display".toList ++ ':' :: ' ' :: t,
        "= 2 =".toList, "CO2: 4 ppm".toList] = .ok [d₁, d₂] ∧
      d₁.status = some ⟨.num (.fin (if t = "GREEN".toList then 1
        else if t = "ORANGE".toList then 2
        else if t = "RED".toList then 3 else 0)), none⟩ ∧
      d₂.co2 = some ⟨.num (.fin 4), some "ppm".toList⟩ := by
  obtain ⟨htn, htw, htc⟩ := goodTok_spec t ht
  have hws : splitEach jsWhitespace t = [t] := splitEach_single _ _ htw
  have hsc : splitColonWs t = [t] := splitColonWs_single _ htc
  have hstep := lineStep_field (some emptyDevice, []) "Status Display".toList t
    .status 'S' (by decide) (by decide) (by decide) (by decide) (by decide) htn
    (fun x hx => htw x (mem_of_head? t x hx))
    (fun x hx => htw x (mem_of_getLast? t x hx))
  rw [hsc] at hstep
  simp only [List.headI_cons] at hstep
  rw [processField_status emptyDevice t hws] at hstep
  have hstep' : lineStep (some emptyDevice, [])
      ("Status Display".toList ++ ':' :: ' ' :: t) =
      .ok (some (setField emptyDevice .status
        ⟨.num (.fin ((statusesIndexOf
            (if jsNumber t = .nan then .str t else .num (jsNumber t)) + 1 : Int) : Rat)),
         none⟩), []) := by
    rw [hstep]
  have hb1 : lineStep (none, []) "= 1 =".toList = .ok (some emptyDevice, []) := by
    rw [lineStep_boundary _ _ (by decide)]
    rfl
  have hb2 : ∀ d : Device, lineStep (some d, []) "= 2 =".toList =
      .ok (some emptyDevice, [d]) := by
    intro d
    rw [lineStep_boundary _ _ (by decide)]
    rfl
  have hdev : devStep emptyDevice "CO2: 4 ppm".toList =
      .ok { co2 := some ⟨.num (.fin 4), some "ppm".toList⟩ } := by decide
  have hb4 : ∀ acc : List Device,
      lineStep (some emptyDevice, acc) "CO2: 4 ppm".toList =
      .ok (some { co2 := some ⟨.num (.fin 4), some "ppm".toList⟩ }, acc) := by
    intro acc
    rw [lineStep_eq_devStep _ _ _ (by decide), hdev]
  refine ⟨setField emptyDevice .status
      ⟨.num (.fin ((statusesIndexOf
          (if jsNumber t = .nan then .str t else .num (jsNumber t)) + 1 : Int) : Rat)),
       none⟩,
    { co2 := some ⟨.num (.fin 4), some "ppm".toList⟩ }, ?_, ?_, rfl⟩
  · unfold parseLines
    simp only [runLines, hb1, hstep', hb2, hb4]
    rfl
  · simp only [setField]
    rw [statusTier t]

/-- C5 witness. -/
theorem status_display_tiering_witness :
    ∃ d₁ d₂, parseLines ["= 1 =".toList,
        "Status Display".toList ++ ':' :: ' ' :: "ORANGE".toList,
        "= 2 =".toList, "CO2: 4 ppm".toList] = .ok [d₁, d₂] ∧
      d₁.status = some ⟨.num (.fin 2), none⟩ ∧
      d₂.co2 = some ⟨.num (.fin 4), some "ppm".toList⟩ := by
  obtain ⟨d₁, d₂, h1, h2, h3⟩ := status_display_tiering "ORANGE".toList (by decide)
  exact ⟨d₁, d₂, h1, by rw [h2]; decide, h3⟩

/-! ## Claim C6 -/

/-- C6: an `Age` line `Age: e/t` with numeric halves stores
`age.value = e`, `age.base = t` and the derived
`nextUpdate = (t - e) * 1000`. -/
theorem age_line_derivation (e t : JSString) (a b : Rat)
    (he : goodTok e = true) (ht : goodTok t = true)
    (hes : ∀ c ∈ e, (c == '/') = false) (hts : ∀ c ∈ t, (c == '/') = false)
    (hna : jsNumber e = .fin a) (hnb : jsNumber t = .fin b) :
    ∃ d, parseLines ["=".toList, "Age".toList ++ ':' :: ' ' :: (e ++ '/' :: t)] =
      .ok [d] ∧
      d.age = some ⟨.fin a, .fin b⟩ ∧
      d.nextUpdate = some ⟨.num (.fin ((b - a) * 1000)), none⟩ := by
  obtain ⟨hen, hew, hec⟩ := goodTok_spec e he
  obtain ⟨htn, htw, htc⟩ := goodTok_spec t ht
  have hrne : (e ++ '/' :: t) ≠ [] := fun h => hen (List.append_eq_nil.mp h).1
  have hws : splitEach jsWhitespace (e ++ '/' :: t) = [e ++ '/' :: t] := by
    apply splitEach_single
    intro x hx
    rcases List.mem_append.mp hx with h | h
    · exact hew x h
    · rcases List.mem_cons.mp h with h | h
      · subst h; decide
      · exact htw x h
  have hsl : splitEach (fun c => c == '/') (e ++ '/' :: t) = [e, t] :=
    splitEach_cut _ _ _ _ (by decide) hes hts
  have hsc : splitColonWs (e ++ '/' :: t) = [e ++ '/' :: t] := by
    apply splitColonWs_single
    intro x hx
    rcases List.mem_append.mp hx with h | h
    · exact hec x h
    · rcases List.mem_cons.mp h with h | h
      · subst h; decide
      · exact htc x h
  have hstep := lineStep_field (some emptyDevice, []) "Age".toList (e ++ '/' :: t)
    .nextUpdate 'A' (by decide) (by decide) (by decide) (by decide) (by decide) hrne
    (head?_of_goodTok_append e _ hen hew)
    (getLast?_of_goodTok_append e '/' t htn htw)
  rw [hsc] at hstep
  simp only [List.headI_cons] at hstep
  rw [processField_age emptyDevice _ e t a b hws hsl hna hnb] at hstep
  refine ⟨setField { emptyDevice with age := some ⟨.fin a, .fin b⟩ } .nextUpdate
      ⟨.num (.fin ((b - a) * 1000)), none⟩, ?_, ?_, ?_⟩
  · unfold parseLines
    simp only [runLines, boundary_first_step, hstep]
    rfl
  · simp [setField]
  · simp [setField]

/-- C6 witness. -/
theorem age_line_derivation_witness :
    ∃ d, parseLines ["=".toList,
        "Age".toList ++ ':' :: ' ' :: ("12".toList ++ '/' :: "300".toList)] =
      .ok [d] ∧
      d.age = some ⟨.fin 12, .fin 300⟩ ∧
      d.nextUpdate = some ⟨.num (.fin 288000), none⟩ := by
  obtain ⟨d, h1, h2, h3⟩ := age_line_derivation "12".toList "300".toList 12 300
    (by decide) (by decide) (by decide) (by decide) (by decide) (by decide)
  refine ⟨d, h1, h2, ?_⟩
  rw [h3]
  norm_num

/-! ## Claim C7 -/

/-- C7 (counterexample): lines are split on *every* `: ` occurrence, so
`Name: a: b` stores only the second segment `"a"`, not the entire rest
`"a: b"`; and `Address` is processed by the numeric branch, so
`Address: 45 xyz` stores the number 45 with unit `"xyz"`, not the raw rest
string. -/
theorem name_value_second_segment_only :
    parse "=\nName: a: b".toList = .ok [{ name := some ⟨.str "a".toList, none⟩ }] ∧
    "a".toList ≠ "a: b".toList ∧
    parse "=\nAddress: 45 xyz".toList =
      .ok [{ address := some ⟨.num (.fin 45), some "xyz".toList⟩ }] := by
  decide

/-- C7 (amended): each line is split on every occurrence of `:` followed by
whitespace; the label is the first segment, unrecognized labels are
skipped, and for `Name` the stored value is exactly the *second* segment
(text after a further `: ` is lost); `Address` runs through the numeric
branch, e.g. `Address: 45 xyz` stores the number 45 with unit `xyz`. -/
theorem label_split_semantics :
    (∀ t₁ t₂ : JSString, goodTok t₁ = true → goodTok t₂ = true →
      ∃ d, parseLines ["=".toList,
          "Name".toList ++ ':' :: ' ' :: (t₁ ++ ':' :: ' ' :: t₂)] = .ok [d] ∧
        d.name = some ⟨.str t₁, none⟩) ∧
    (∀ (st : Option Device × List Device) (l : JSString), isBoundary l = false →
      (lookupKey (splitColonWs (trim l)).headI).isNone = true →
      lineStep st l = .ok st) ∧
    parseLines ["=".toList, "Address".toList ++ ':' :: ' ' :: "45 xyz".toList] =
      .ok [{ address := some ⟨.num (.fin 45), some "xyz".toList⟩ }] := by
  refine ⟨?_, ?_, by decide⟩
  · intro t₁ t₂ h₁ h₂
    obtain ⟨h1n, h1w, h1c⟩ := goodTok_spec t₁ h₁
    obtain ⟨h2n, h2w, h2c⟩ := goodTok_spec t₂ h₂
    have hrne : (t₁ ++ ':' :: ' ' :: t₂) ≠ [] := fun h => h1n (List.append_eq_nil.mp h).1
    have hsc : splitColonWs (t₁ ++ ':' :: ' ' :: t₂) = [t₁, t₂] := by
      rw [splitColonWs_append _ _ h1c,
        splitColonWs_cut ' ' t₂ (by decide)
          (fun x hx => h2w x (mem_of_head? t₂ x hx)),
        splitColonWs_single t₂ h2c]
      simp [withHead]
    have hstep := lineStep_field (some emptyDevice, []) "Name".toList
      (t₁ ++ ':' :: ' ' :: t₂) .name 'N' (by decide) (by decide) (by decide)
      (by decide) (by decide) hrne
      (head?_of_goodTok_append t₁ _ h1n h1w)
      (by
        intro x hx
        rw [show t₁ ++ ':' :: ' ' :: t₂ = (t₁ ++ [':', ' ']) ++ t₂ by simp] at hx
        exact getLast?_ws_free_tail _ _ h2n h2w x hx)
    rw [hsc] at hstep
    simp only [List.headI_cons] at hstep
    rw [processField_name emptyDevice (some t₁)] at hstep
    refine ⟨setField emptyDevice .name ⟨valOfOpt (some t₁), none⟩, ?_, rfl⟩
    unfold parseLines
    simp only [runLines, boundary_first_step, hstep]
    rfl
  · intro st l hB hN
    exact lineStep_skip st l (by simp [skipLine, hB, hN])

/-- C7 witness. -/
theorem label_split_semantics_witness :
    (∃ d, parseLines ["=".toList,
        "Name".toList ++ ':' :: ' ' :: ("a".toList ++ ':' :: ' ' :: "b".toList)] =
      .ok [d] ∧ d.name = some ⟨.str "a".toList, none⟩) ∧
    lineStep (none, ([] : List Device)) "Foo: 1".toList = .ok (none, []) :=
  ⟨label_split_semantics.1 "a".toList "b".toList (by decide) (by decide),
   label_split_semantics.2.1 (none, []) "Foo: 1".toList (by decide) (by decide)⟩

end Aranet
